import Mathlib

/-!
Verification development for the CSV email-validation pipeline.

The definitions below are shallow embeddings of the TypeScript sources:
  * `EmailValidator.*`  embeds `src/email-validator/email-validator.service.ts`
    and `src/email-validator/email-validator.worker.ts`;
  * `CsvProcessor.*`    embeds `src/csv-processor/service/csv-processor.service.ts`.

JavaScript arrays become `List`, machine numbers become `Nat`/`Int`,
`async` network and database calls become explicit oracles/flags in an
environment record, and thrown exceptions become `Except` errors.
-/

namespace EmailValidator

/-- The object returned by the worker for one address
(`{ email, status, mx, provider }` in `email-validator.worker.ts`). -/
structure Outcome where
  email : String
  status : String
  mx : String
  provider : String
deriving Repr, DecidableEq

/-- `private readonly MAX_WORKERS = 4` in `email-validator.service.ts`. -/
def MAX_WORKERS : Nat := 4

/-- One step of `emails.forEach((email, index) => result[index % numChunks].push(email))`:
push `e` onto bucket `i`. -/
def pushToChunk (chunks : List (List String)) (i : Nat) (e : String) : List (List String) :=
  chunks.set i (chunks.getD i [] ++ [e])

/-- The `forEach` loop of `splitEmailsIntoChunks`, carrying the running index. -/
def splitGo (numChunks : Nat) : List (List String) → List String → Nat → List (List String)
  | chunks, [], _ => chunks
  | chunks, e :: rest, index =>
      splitGo numChunks (pushToChunk chunks (index % numChunks) e) rest (index + 1)

/-- `splitEmailsIntoChunks(emails, numChunks)` from `email-validator.service.ts`:
`numChunks` empty buckets, then round-robin pushes by `index % numChunks`. -/
def splitEmailsIntoChunks (emails : List String) (numChunks : Nat) : List (List String) :=
  splitGo numChunks (List.replicate numChunks []) emails 0

/-! String helpers.  Core `String.toLower`/`trim`/`splitOn` are written with
iterators that the kernel cannot reduce, so the JS string operations are
embedded directly on the character lists (`String.data`), which do reduce. -/

/-- JS `s.toLowerCase()` (ASCII letters, as `Char.toLower`). -/
def lowerStr (s : String) : String := ⟨s.data.map Char.toLower⟩

/-- Strip leading and trailing whitespace from a character list. -/
def trimChars (cs : List Char) : List Char :=
  ((cs.dropWhile Char.isWhitespace).reverse.dropWhile Char.isWhitespace).reverse

/-- JS `s.trim()`. -/
def trimStr (s : String) : String := ⟨trimChars s.data⟩

/-- JS `hay.includes(needle)`: `needle` occurs as a contiguous substring. -/
def includesStr (hay needle : String) : Bool :=
  (List.range (hay.data.length + 1)).any (fun i => needle.data.isPrefixOf (hay.data.drop i))

/-- JS `s.split(sep)` for a one-character separator. -/
def splitOnChar (sep : Char) : List Char → List (List Char)
  | [] => [[]]
  | c :: rest =>
      match splitOnChar sep rest with
      | [] => if c == sep then [[], []] else [[c]]
      | h :: t => if c == sep then [] :: h :: t else (c :: h) :: t

/-- The email regex `/^[^\s@]+@[^\s@]+\.[^\s@]+$/` as a decision procedure:
a nonempty whitespace-free local part up to the first `@`, then a nonempty
part free of whitespace and `@` that contains a `.` with at least one
character on each side. -/
def emailRegexTest (cs : List Char) : Bool :=
  let a := cs.takeWhile (fun c => c != '@')
  match cs.dropWhile (fun c => c != '@') with
  | [] => false
  | _ :: b =>
      !a.isEmpty && a.all (fun c => !c.isWhitespace) &&
      !b.isEmpty && b.all (fun c => !c.isWhitespace && c != '@') &&
      (List.range b.length).any
        (fun j => b.getD j ' ' == '.' && decide (0 < j) && decide (j + 1 < b.length))

/-- `containsEmailPattern(samples)` from the service: split on commas and test
each trimmed sample against the email regex. -/
def containsEmailPattern (samples : String) : Bool :=
  ((splitOnChar ',' samples.data).map trimChars).any emailRegexTest

/-- The acceptance test applied to one header cell inside `validateEmailColumn`:
`lowerHeader.includes('email') || this.containsEmailPattern(header)`. -/
def passesHeuristics (header : String) : Bool :=
  includesStr (lowerStr header) "email" || containsEmailPattern header

/-- `potentialEmailColumns`: the indices of header cells accepted by either
heuristic (the `reduce`/`push` in the service, as an `enum`/`filter`/`map`). -/
def potentialEmailColumns (headers : List String) : List Nat :=
  (headers.enum.filter (fun p => passesHeuristics p.2)).map Prod.fst

/-- The two `BadRequestException`s thrown by `validateEmailColumn`. -/
inductive ColumnError where
  | invalidIndex (maxAllowed : Nat)
  | notEmailColumn (suggestions : List Nat)
deriving Repr, DecidableEq

/-- `validateEmailColumn(headers, emailColumnIndex)` from the service. -/
def validateEmailColumn (headers : List String) (emailColumnIndex : Nat) :
    Except ColumnError Unit :=
  if headers.length ≤ emailColumnIndex then
    .error (.invalidIndex (headers.length - 1))
  else if (potentialEmailColumns headers).contains emailColumnIndex then
    .ok ()
  else
    .error (.notEmailColumn (potentialEmailColumns headers))

/-! The worker (`email-validator.worker.ts`).  The network is an oracle from
the attempt number to the service response (`none` models a transport or
timeout error). -/

/-- `MAX_RETRIES = 3` in the worker. -/
def MAX_RETRIES : Nat := 3

/-- The shape of a successful verification-service response. -/
structure NetResponse where
  email_status : String
  email_mx : String
  provider : String
deriving Repr, DecidableEq

/-- `Math.min(Math.pow(2, retries) * 1000, 5000)`. -/
def backoffDelay (retries : Nat) : Nat := min (2 ^ retries * 1000) 5000

/-- `validateEmail(email, retries)` from the worker; also returns the list of
backoff delays waited before each retry. -/
def validateEmail (net : Nat → Option NetResponse) (email : String) (retries : Nat) :
    Outcome × List Nat :=
  match net retries with
  | some r => (⟨email, r.email_status, r.email_mx, r.provider⟩, [])
  | none =>
      if h : retries < MAX_RETRIES then
        let next := validateEmail net email (retries + 1)
        (next.1, backoffDelay retries :: next.2)
      else
        (⟨email, "invalid", "error", "error"⟩, [])
termination_by MAX_RETRIES + 1 - retries
decreasing_by omega

/-! The `validateEmailsInCsv` pipeline of `email-validator.service.ts`. -/

/-- The short-circuit test of the first loop:
`!email || email.trim() === '' || ['null','undefined'].includes(email.toLowerCase())`. -/
def isEmptyEmail (email : String) : Bool :=
  email == "" || trimStr email == "" ||
    (["null", "undefined"] : List String).contains (lowerStr email)

/-- The `EmailToProcess` interface (`{ email, rowIndex, record }`). -/
structure EmailToProcess where
  email : String
  rowIndex : Nat
  record : List String
deriving Repr, DecidableEq

/-- The `stats` object `{ valid, invalid, unverifiable, processed }`. -/
structure Stats where
  valid : Nat
  invalid : Nat
  unverifiable : Nat
  processed : Nat
deriving Repr, DecidableEq

/-- `{ valid: 0, invalid: 0, unverifiable: 0, processed: 0 }`. -/
def stats0 : Stats := ⟨0, 0, 0, 0⟩

/-- `record.splice(n, 0, v)` on an array of strings: insert `v` at index `n`
(JS `splice` clamps `n` to the array length). -/
def spliceInsert (n : Nat) (v : String) (l : List String) : List String :=
  l.take n ++ [v] ++ l.drop n

/-- State carried by the first `for await` loop (rows are kept as field lists;
the source pushes `record.join(',')`, the join to one string is applied once
at the end in `finalCsv`, which produces the identical bytes). -/
structure PassState where
  processedRows : List (List String)
  emailsToProcess : List EmailToProcess
  stats : Stats
deriving Repr, DecidableEq

/-- Body of the first loop of `validateEmailsInCsv` for one data row. -/
def classifyRow (emailColumnIndex : Nat) (st : PassState) (record : List String) : PassState :=
  let email := record.getD emailColumnIndex ""
  if isEmptyEmail email then
    { st with
      processedRows :=
        st.processedRows ++ [spliceInsert (emailColumnIndex + 1) "invalid" record],
      stats := { st.stats with invalid := st.stats.invalid + 1 } }
  else
    { st with
      emailsToProcess :=
        st.emailsToProcess ++ [⟨trimStr email, st.emailsToProcess.length, record⟩] }

/-- The first pass over the parsed records: the header row gains the
`Email_Validation` column at `emailColumnIndex + 1`, then every data row is
classified. -/
def firstPass (emailColumnIndex : Nat) (headers : List String)
    (dataRows : List (List String)) : PassState :=
  dataRows.foldl (classifyRow emailColumnIndex)
    ⟨[spliceInsert (emailColumnIndex + 1) "Email_Validation" headers], [], stats0⟩

/-- The stat updates of the merge loop. -/
def bumpStats (stats : Stats) (status : String) : Stats :=
  let stats :=
    if status == "valid" then { stats with valid := stats.valid + 1 }
    else if status == "invalid" then { stats with invalid := stats.invalid + 1 }
    else { stats with unverifiable := stats.unverifiable + 1 }
  { stats with processed := stats.processed + 1 }

/-- `validationResults.forEach((result, index) => ...)`: the result at flat
position `index` is attached to `emailsToProcess[index]`; the destructured
`rowIndex` field is never used, exactly as in the source. -/
def mergeLoop (emailColumnIndex : Nat) (emailsToProcess : List EmailToProcess) :
    List Outcome → Nat → List (List String) → Stats → List (List String) × Stats
  | [], _, rows, stats => (rows, stats)
  | result :: rest, index, rows, stats =>
      let item := emailsToProcess.getD index ⟨"", 0, []⟩
      let record := spliceInsert (emailColumnIndex + 1) result.status item.record
      mergeLoop emailColumnIndex emailsToProcess rest (index + 1)
        (rows ++ [record]) (bumpStats stats result.status)

/-- Per-chunk worker results: `processEmails` maps `validateEmail` over its
chunk; here abstracted over a deterministic per-address verifier `f`. -/
def workerResults (f : String → Outcome) (chunks : List (List String)) :
    List (List Outcome) :=
  chunks.map (fun c => c.map f)

/-- The scatter/gather and merge core of `validateEmailsInCsv`, abstracted
over the result-gathering function: `Promise.all` resolves positionally, which
is `gather = id`; `gatherBySchedule` below models explicit completion orders. -/
def processRecords (gather : List (List Outcome) → List (List Outcome))
    (f : String → Outcome) (emailColumnIndex : Nat) (headers : List String)
    (dataRows : List (List String)) : List (List String) × Stats :=
  let st := firstPass emailColumnIndex headers dataRows
  let emailsOnly := st.emailsToProcess.map (·.email)
  let emailChunks := splitEmailsIntoChunks emailsOnly MAX_WORKERS
  let validationResults := (gather (workerResults f emailChunks)).flatten
  mergeLoop emailColumnIndex st.emailsToProcess validationResults 0
    st.processedRows st.stats

/-- `processedRows.join('\n')` after each row's `join(',')`. -/
def finalCsv (rows : List (List String)) : String :=
  String.intercalate "\n" (rows.map (String.intercalate ","))

/-! Database / storage environment for the whole run. -/

/-- A row of the `users` table (`user_id, user_email, credits`). -/
structure UserRow where
  user_id : String
  user_email : String
  credits : Int
deriving Repr, DecidableEq

/-- A row of the `files` table (the fields the claims are about). -/
structure FileRow where
  file_id : String
  user_email : String
  status : String
  credits_consumed : Option Nat
deriving Repr, DecidableEq

/-- The relational store. -/
structure DbState where
  users : List UserRow
  files : List FileRow
deriving Repr, DecidableEq

/-- The errors thrown by `validateEmailsInCsv`.  The first three are
`BadRequestException`s; the rest are generic `Error`s.  The final `files`
insert and `users` update never throw — the source ignores their result
objects — so only the download and the upload have error constructors. -/
inductive VError where
  | userNotFound
  | insufficientCredits (required : Nat) (available : Int)
  | badColumn (e : ColumnError)
  | fetchFailed
  | uploadFailed
deriving Repr, DecidableEq

/-- Which errors are `BadRequestException`s (rethrown without inserting an
`Error` file record in the catch block). -/
def isBadRequest : VError → Bool
  | .userNotFound => true
  | .insufficientCredits _ _ => true
  | .badColumn _ => true
  | _ => false

/-- Parameters of a run (`filename` collapsed into `fileId`). -/
structure Params where
  emailColumnIndex : Nat
  userEmail : String
  totalEmails : Nat
  fileId : String

/-- The environment of one run: database contents, the parsed rows the blob
store returns for the uploaded file (`none` = fetch error; CSV parsing itself
is the external `csv-parse` collaborator), the deterministic per-address
verifier implemented by the workers, and whether each of the three final
writes takes effect.  The upload's error is checked by the source and aborts
the run; the `files` insert and `users` update results are ignored, so their
flags only decide whether the database actually changes. -/
structure Env where
  db : DbState
  download : Option (List (List String))
  verifyFn : String → Outcome
  uploadOk : Bool
  insertOk : Bool
  updateOk : Bool

/-- Effect counters: blob-store operations and verification-service calls. -/
structure Trace where
  blobOps : Nat
  verifyCalls : Nat
deriving Repr, DecidableEq

/-- The value produced by one run: thrown error or `{message, status}`, the
resulting database, the effect counters, and (when the merge was reached) the
output rows and final stats. -/
structure RunResult where
  result : Except VError (String × String)
  db : DbState
  trace : Trace
  outRows : List (List String)
  stats : Stats

/-- `verifyUserCredits(userEmail, requiredCredits)`. -/
def verifyUserCredits (users : List UserRow) (userEmail : String)
    (requiredCredits : Nat) : Except VError UserRow :=
  match users.find? (fun u => u.user_email == userEmail) with
  | none => .error .userNotFound
  | some user =>
      if user.credits < (requiredCredits : Int) then
        .error (.insufficientCredits requiredCredits user.credits)
      else
        .ok user

/-- Append a row to `files` (a Supabase `insert`). -/
def insertFileRow (db : DbState) (row : FileRow) : DbState :=
  { db with files := db.files ++ [row] }

/-- `update({credits}).eq('user_id', ...)` on `users`. -/
def updateCredits (db : DbState) (uid : String) (newCredits : Int) : DbState :=
  { db with
    users := db.users.map (fun u =>
      if u.user_id == uid then { u with credits := newCredits } else u) }

/-- The catch block: `BadRequestException`s are rethrown as-is, any other
error first inserts an `Error` file record. -/
def catchErr (db : DbState) (p : Params) (e : VError) : DbState :=
  if isBadRequest e then db
  else insertFileRow db ⟨p.fileId, p.userEmail, "Error", none⟩

/-- The database after the two final writes of a successful run: first the
`Completed` insert into `files`, then the credit decrement on `users`.  Both
are fire-and-forget in the source — their `{error}` results are ignored — so
a write that fails simply leaves the database unchanged while the run still
reports success; the flag of each write decides only whether it took
effect. -/
def settledDb (env : Env) (p : Params) (user : UserRow) : DbState :=
  let db1 :=
    if env.insertOk then
      insertFileRow env.db ⟨p.fileId, p.userEmail, "Completed", some p.totalEmails⟩
    else env.db
  if env.updateOk then
    updateCredits db1 user.user_id (user.credits - (p.totalEmails : Int))
  else db1

/-- The tail of a successful parse: scatter/gather/merge over the collected
pass state, then the upload (whose error the source checks and throws), then
the unchecked `Completed` insert and credit decrement, then the success
return — exactly as in the source. -/
def finishRun (gather : List (List Outcome) → List (List Outcome)) (env : Env)
    (p : Params) (user : UserRow) (st : PassState) : RunResult :=
  let emailChunks := splitEmailsIntoChunks (st.emailsToProcess.map (·.email)) MAX_WORKERS
  let validationResults := (gather (workerResults env.verifyFn emailChunks)).flatten
  let merged := mergeLoop p.emailColumnIndex st.emailsToProcess validationResults 0
    st.processedRows st.stats
  let outRows := merged.1
  let stats := merged.2
  let trace : Trace := ⟨2, (emailChunks.map List.length).sum⟩
  if env.uploadOk then
    ⟨.ok ("Validation completed successfully", "Completed"), settledDb env p user, trace,
      outRows, stats⟩
  else
    ⟨.error .uploadFailed, catchErr env.db p .uploadFailed, trace, outRows, stats⟩

/-- `validateEmailsInCsv(params)`, abstracted over the gathering function. -/
def runWith (gather : List (List Outcome) → List (List Outcome)) (env : Env)
    (p : Params) : RunResult :=
  match verifyUserCredits env.db.users p.userEmail p.totalEmails with
  | .error e => ⟨.error e, catchErr env.db p e, ⟨0, 0⟩, [], stats0⟩
  | .ok user =>
      match env.download with
      | none => ⟨.error .fetchFailed, catchErr env.db p .fetchFailed, ⟨1, 0⟩, [], stats0⟩
      | some records =>
          match records with
          | [] =>
              -- an empty parse: the loop body never runs, so no header row is
              -- emitted and no address is collected
              finishRun gather env p user ⟨[], [], stats0⟩
          | headers :: dataRows =>
              match validateEmailColumn headers p.emailColumnIndex with
              | .error ce =>
                  ⟨.error (.badColumn ce), catchErr env.db p (.badColumn ce), ⟨1, 0⟩, [], stats0⟩
              | .ok _ => finishRun gather env p user (firstPass p.emailColumnIndex headers dataRows)

/-- `validateEmailsInCsv` with the positional `Promise.all` gathering. -/
def validateEmailsInCsv (env : Env) (p : Params) : RunResult :=
  runWith id env p

/-- Deliver worker results in an explicit completion order `schedule`: each
completing worker `w` stores its chunk's results in slot `w`; `Promise.all`
reads the slots positionally once all workers completed. -/
def gatherBySchedule (schedule : List Nat) (results : List (List Outcome)) :
    List (List Outcome) :=
  schedule.foldl (fun slots w => slots.set w (results.getD w []))
    (List.replicate results.length [])

/-- A run in which the workers complete in the order `schedule`. -/
def runWithSchedule (schedule : List Nat) (env : Env) (p : Params) : RunResult :=
  runWith (gatherBySchedule schedule) env p

/-- Deleting the inserted column from an output row: the inserted value sits at
index `min (emailColumnIndex + 1) (row.length - 1)` (JS `splice` clamps the
insertion position to the end of the row). -/
def removeInserted (emailColumnIndex : Nat) (row : List String) : List String :=
  row.eraseIdx (min (emailColumnIndex + 1) (row.length - 1))

end EmailValidator

namespace CsvProcessor

/-- The `CsvPreviewStats` interface of `csv-processor.interface.ts`. -/
structure CsvPreviewStats where
  totalEmails : Nat
  totalRows : Nat
  totalEmptyEmails : Nat
  totalDuplicateEmails : Nat
  columnName : String
deriving Repr, DecidableEq

/-- `validateEmailColumn` of `csv-processor.service.ts`: bounds-check the
declared index against the header row and require the header text to contain
`email` (case-insensitive).  On an input with no rows the original promise
never settles; that unreachable-for-valid-inputs case is modeled as an
error. -/
def validateEmailColumn (rows : List (List String)) (emailColumnIndex : Nat) :
    Except String String :=
  match rows with
  | [] => .error "no rows"
  | header :: _ =>
      if header.length ≤ emailColumnIndex then
        .error "Column index does not exist in the CSV file"
      else
        let columnName := header.getD emailColumnIndex ""
        if EmailValidator.includesStr (EmailValidator.lowerStr columnName) "email" then
          .ok columnName
        else
          .error "not an email column"

/-- The `processRow` transform of `previewCSV`, one row at a time, carrying
the stats object and the `emailSet` (a list of already-seen lowercased
addresses). -/
def previewLoop (emailColumnIndex : Nat) :
    List (List String) → CsvPreviewStats → List String →
      Except String (CsvPreviewStats × List String)
  | [], stats, seen => .ok (stats, seen)
  | row :: rest, stats, seen =>
      if stats.totalRows == 0 then
        previewLoop emailColumnIndex rest { stats with totalRows := stats.totalRows + 1 } seen
      else if row.length ≤ emailColumnIndex then
        .error "No data found at column index"
      else
        let email := EmailValidator.lowerStr
          (EmailValidator.trimStr (row.getD emailColumnIndex ""))
        if email == "" || email == "null" || email == "undefined" then
          previewLoop emailColumnIndex rest
            { stats with totalRows := stats.totalRows + 1,
                         totalEmptyEmails := stats.totalEmptyEmails + 1 } seen
        else if seen.contains email then
          previewLoop emailColumnIndex rest
            { stats with totalRows := stats.totalRows + 1,
                         totalDuplicateEmails := stats.totalDuplicateEmails + 1 } seen
        else
          previewLoop emailColumnIndex rest
            { stats with totalRows := stats.totalRows + 1,
                         totalEmails := stats.totalEmails + 1 } (seen ++ [email])

/-- `previewCSV(buffer, emailColumnIndex)` on already-parsed rows. -/
def previewCSV (rows : List (List String)) (emailColumnIndex : Nat) :
    Except String CsvPreviewStats :=
  match validateEmailColumn rows emailColumnIndex with
  | .error e => .error e
  | .ok columnName =>
      match previewLoop emailColumnIndex rows ⟨0, 0, 0, 0, columnName⟩ [] with
      | .error e => .error e
      | .ok (stats, _) => .ok stats

end CsvProcessor

namespace Scenarios

/-- Deterministic stub verifier that accepts only `a4@x.com`. -/
def rrVerify : String → EmailValidator.Outcome := fun e =>
  if e == "a4@x.com" then ⟨e, "valid", "mx", "p"⟩ else ⟨e, "invalid", "mx", "p"⟩

/-- One user with ample credits; a five-row file; all writes succeed. -/
def rrEnv : EmailValidator.Env :=
  ⟨⟨[⟨"u1", "u@x.com", 100⟩], []⟩,
   some [["email"], ["a0@x.com"], ["a1@x.com"], ["a2@x.com"], ["a3@x.com"], ["a4@x.com"]],
   rrVerify, true, true, true⟩

def rrParams : EmailValidator.Params := ⟨0, "u@x.com", 5, "f1"⟩

/-- A file with one verifiable address and one empty address. -/
def statsEnv : EmailValidator.Env :=
  ⟨⟨[⟨"u1", "u@x.com", 100⟩], []⟩, some [["email"], ["a@x.com"], [""]],
   (fun e => ⟨e, "valid", "mx", "p"⟩), true, true, true⟩

def statsParams : EmailValidator.Params := ⟨0, "u@x.com", 2, "f2"⟩

/-- A run in which the unchecked credit-update write is silently lost. -/
def settleEnv : EmailValidator.Env :=
  ⟨⟨[⟨"u1", "u@x.com", 10⟩], []⟩, some [["email"], ["a@b.cd"]],
   (fun e => ⟨e, "valid", "mx", "p"⟩), true, true, false⟩

/-- A run in which the unchecked `Completed` insert is silently lost. -/
def settleEnvB : EmailValidator.Env :=
  ⟨⟨[⟨"u1", "u@x.com", 10⟩], []⟩, some [["email"], ["a@b.cd"]],
   (fun e => ⟨e, "valid", "mx", "p"⟩), true, false, true⟩

/-- The same run with every write taking effect. -/
def settleOkEnv : EmailValidator.Env :=
  ⟨⟨[⟨"u1", "u@x.com", 10⟩], []⟩, some [["email"], ["a@b.cd"]],
   (fun e => ⟨e, "valid", "mx", "p"⟩), true, true, true⟩

def settleParams : EmailValidator.Params := ⟨0, "u@x.com", 1, "f5"⟩

end Scenarios

namespace EmailValidator

lemma length_pushToChunk (chunks : List (List String)) (i : Nat) (e : String) :
    (pushToChunk chunks i e).length = chunks.length := by
  simp [pushToChunk]

lemma getD_pushToChunk (chunks : List (List String)) (j i : Nat) (e : String)
    (hj : j < chunks.length) :
    (pushToChunk chunks j e).getD i [] =
      if j = i then chunks.getD j [] ++ [e] else chunks.getD i [] := by
  simp only [pushToChunk, List.getD_eq_getElem?_getD, List.getElem?_set, hj, if_true]
  by_cases h : j = i
  · simp [h]
  · simp [h]

lemma length_splitGo (numChunks : Nat) :
    ∀ (l : List String) (chunks : List (List String)) (s : Nat),
      (splitGo numChunks chunks l s).length = chunks.length := by
  intro l
  induction l with
  | nil => intro chunks s; rfl
  | cons e rest ih =>
      intro chunks s
      rw [splitGo, ih, length_pushToChunk]

lemma getD_splitGo (numChunks : Nat) (hN : 0 < numChunks) :
    ∀ (l : List String) (chunks : List (List String)) (s i : Nat),
      chunks.length = numChunks →
      (splitGo numChunks chunks l s).getD i [] =
        chunks.getD i [] ++
          ((List.enumFrom s l).filter (fun p => p.1 % numChunks == i)).map Prod.snd := by
  intro l
  induction l with
  | nil => intro chunks s i hlen; simp [splitGo]
  | cons e rest ih =>
      intro chunks s i hlen
      rw [splitGo, ih _ _ _ (by rw [length_pushToChunk]; exact hlen),
        getD_pushToChunk _ _ _ _ (by rw [hlen]; exact Nat.mod_lt _ hN),
        List.enumFrom_cons]
      by_cases h : s % numChunks = i
      · simp [List.filter_cons, h, List.append_assoc]
      · simp [List.filter_cons, h]

lemma length_splitEmailsIntoChunks (emails : List String) (numChunks : Nat) :
    (splitEmailsIntoChunks emails numChunks).length = numChunks := by
  rw [splitEmailsIntoChunks, length_splitGo, List.length_replicate]

lemma getD_replicate_nil (n i : Nat) :
    (List.replicate n ([] : List String)).getD i [] = [] := by
  rcases lt_or_ge i n with h | h
  · simp [List.getD_eq_getElem?_getD, List.getElem?_replicate, h]
  · simp [List.getD_eq_getElem?_getD, List.getElem?_replicate, Nat.not_lt.mpr h]

/-- Characterization of the round-robin split: bucket `i` holds exactly the
addresses whose list index is congruent to `i` mod `numChunks`, in order. -/
lemma getD_splitEmailsIntoChunks (emails : List String) (numChunks : Nat)
    (hN : 0 < numChunks) (i : Nat) :
    (splitEmailsIntoChunks emails numChunks).getD i [] =
      ((emails.enum.filter (fun p => p.1 % numChunks == i)).map Prod.snd) := by
  rw [splitEmailsIntoChunks,
    getD_splitGo numChunks hN emails _ 0 i (List.length_replicate _ _),
    getD_replicate_nil]
  rfl

lemma length_filter_enumFrom (Q : Nat → Bool) :
    ∀ (l : List String) (s : Nat),
      ((List.enumFrom s l).filter (fun p => Q p.1)).length =
        ((List.range' s l.length).filter Q).length := by
  intro l
  induction l with
  | nil => intro s; rfl
  | cons e rest ih =>
      intro s
      rw [List.enumFrom_cons, List.length_cons, List.range'_succ]
      by_cases h : Q s
      · simp [List.filter_cons, h, ih]
      · simp [List.filter_cons, h, ih]

lemma count_mod_range (numChunks i : Nat) (hi : i < numChunks) :
    ∀ n, ((List.range n).filter (fun k => k % numChunks == i)).length =
      (n + (numChunks - 1 - i)) / numChunks := by
  intro n
  induction n with
  | zero => simp [Nat.div_eq_of_lt (show numChunks - 1 - i < numChunks by omega)]
  | succ n ih =>
      rw [List.range_succ, List.filter_append, List.length_append, ih]
      have key : (numChunks ∣ n + (numChunks - 1 - i) + 1) ↔ n % numChunks = i := by
        have h1 : n + (numChunks - 1 - i) + 1 = n + numChunks - i := by omega
        rw [h1, ← Nat.modEq_iff_dvd' (by omega)]
        simp only [Nat.ModEq, Nat.add_mod_right, Nat.mod_eq_of_lt hi]
        exact eq_comm
      have harith : n + 1 + (numChunks - 1 - i) = n + (numChunks - 1 - i) + 1 := by omega
      rw [harith, Nat.succ_div]
      by_cases h : n % numChunks = i
      · simp [h, key.mpr h]
      · have : ¬ numChunks ∣ n + (numChunks - 1 - i) + 1 := fun hd => h (key.mp hd)
        simp [h, this]

/-- Size of round-robin bucket `i`. -/
lemma length_chunk (emails : List String) (numChunks i : Nat)
    (hN : 0 < numChunks) (hi : i < numChunks) :
    ((splitEmailsIntoChunks emails numChunks).getD i []).length =
      (emails.length + (numChunks - 1 - i)) / numChunks := by
  rw [getD_splitEmailsIntoChunks emails numChunks hN i, List.length_map]
  have he : emails.enum = List.enumFrom 0 emails := rfl
  rw [he, length_filter_enumFrom (fun k => k % numChunks == i) emails 0,
    ← List.range_eq_range', count_mod_range numChunks i hi]

lemma mem_potentialEmailColumns (headers : List String) (j : Nat) :
    j ∈ potentialEmailColumns headers ↔
      j < headers.length ∧ passesHeuristics (headers.getD j "") = true := by
  simp only [potentialEmailColumns, List.mem_map, List.mem_filter]
  constructor
  · rintro ⟨⟨k, x⟩, ⟨hmem, hpass⟩, rfl⟩
    rw [List.mk_mem_enum_iff_getElem?] at hmem
    have hk : k < headers.length := by
      by_contra hge
      rw [List.getElem?_eq_none (by omega)] at hmem
      exact Option.noConfusion hmem
    refine ⟨hk, ?_⟩
    rw [List.getD_eq_getElem?_getD, hmem]
    exact hpass
  · rintro ⟨hj, hpass⟩
    refine ⟨(j, headers.getD j ""), ⟨?_, ?_⟩, rfl⟩
    · rw [List.mk_mem_enum_iff_getElem?, List.getD_eq_getElem?_getD,
        List.getElem?_eq_getElem hj]
      rfl
    · exact hpass

lemma validateEmail_delays (net : Nat → Option NetResponse) (email : String) :
    ∀ fuel retries, MAX_RETRIES + 1 - retries ≤ fuel → retries ≤ MAX_RETRIES →
      ∃ k, retries + k ≤ MAX_RETRIES ∧
        (validateEmail net email retries).2 = (List.range' retries k).map backoffDelay := by
  intro fuel
  induction fuel with
  | zero => intro retries h1 h2; omega
  | succ fuel ih =>
      intro retries h1 h2
      rw [validateEmail]
      cases hnet : net retries with
      | some r => exact ⟨0, by omega, rfl⟩
      | none =>
          by_cases h : retries < MAX_RETRIES
          · obtain ⟨k, hk, he⟩ := ih (retries + 1) (by omega) (by omega)
            refine ⟨k + 1, by omega, ?_⟩
            simp only [h, dif_pos]
            rw [List.range'_succ, List.map_cons, ← he]
          · exact ⟨0, by omega, by simp [h]⟩

lemma flatten_filter_ne_nil (l : List (List Outcome)) :
    (l.filter (fun c => !c.isEmpty)).flatten = l.flatten := by
  induction l with
  | nil => rfl
  | cons c rest ih =>
      by_cases h : c.isEmpty
      · have hc : c = [] := by cases c with
          | nil => rfl
          | cons x xs => simp [List.isEmpty] at h
        simp [List.filter_cons, h, hc, ih]
      · simp [List.filter_cons, h, ih]

lemma validateEmailColumn_eq (headers : List String) (emailColumnIndex : Nat)
    (h : emailColumnIndex < headers.length) :
    validateEmailColumn headers emailColumnIndex =
      (if passesHeuristics (headers.getD emailColumnIndex "") then Except.ok ()
       else .error (.notEmailColumn (potentialEmailColumns headers))) := by
  have hle : ¬ headers.length ≤ emailColumnIndex := by omega
  rw [validateEmailColumn, if_neg hle]
  by_cases hp : passesHeuristics (headers.getD emailColumnIndex "")
  · have hmem : emailColumnIndex ∈ potentialEmailColumns headers :=
      (mem_potentialEmailColumns headers emailColumnIndex).mpr ⟨h, hp⟩
    have hc : (potentialEmailColumns headers).contains emailColumnIndex = true := by
      simpa [List.contains] using List.elem_iff.mpr hmem
    rw [if_pos hc, if_pos hp]
  · have hmem : emailColumnIndex ∉ potentialEmailColumns headers := fun hm =>
      hp ((mem_potentialEmailColumns headers emailColumnIndex).mp hm).2
    have hc : ¬ (potentialEmailColumns headers).contains emailColumnIndex = true := by
      intro hx
      exact hmem (List.elem_iff.mp (by simpa [List.contains] using hx))
    rw [if_neg hc, if_neg hp]

lemma users_catchErr (db : DbState) (p : Params) (e : VError) :
    (catchErr db p e).users = db.users := by
  rw [catchErr]
  split <;> rfl

lemma users_insertFileRow (db : DbState) (row : FileRow) :
    (insertFileRow db row).users = db.users := rfl

lemma users_settledDb (env : Env) (p : Params) (user : UserRow) :
    (settledDb env p user).users =
      if env.updateOk = true then
        (updateCredits env.db user.user_id (user.credits - (p.totalEmails : Int))).users
      else env.db.users := by
  rw [settledDb]
  cases hins : env.insertOk <;> cases hupd : env.updateOk <;>
    simp [updateCredits, insertFileRow]

lemma finishRun_cases (gather : List (List Outcome) → List (List Outcome))
    (env : Env) (p : Params) (user : UserRow) (st : PassState) :
    ((finishRun gather env p user st).result = .error .uploadFailed ∧
      (finishRun gather env p user st).db.users = env.db.users)
  ∨ ((finishRun gather env p user st).result =
        .ok ("Validation completed successfully", "Completed") ∧
      (finishRun gather env p user st).db = settledDb env p user) := by
  cases hup : env.uploadOk with
  | false =>
      left
      constructor
      · simp [finishRun, hup]
      · simp [finishRun, hup, users_catchErr]
  | true =>
      right
      constructor
      · simp [finishRun, hup]
      · simp [finishRun, hup]

lemma runWith_settlement_cases (gather : List (List Outcome) → List (List Outcome))
    (env : Env) (p : Params) :
    ((∃ e, (runWith gather env p).result = .error e) ∧
      (runWith gather env p).db.users = env.db.users)
  ∨ (∃ u, verifyUserCredits env.db.users p.userEmail p.totalEmails = .ok u ∧
      (runWith gather env p).result = .ok ("Validation completed successfully", "Completed") ∧
      (runWith gather env p).db = settledDb env p u) := by
  cases hv : verifyUserCredits env.db.users p.userEmail p.totalEmails with
  | error e =>
      left
      simp only [runWith, hv]
      exact ⟨⟨_, rfl⟩, users_catchErr _ _ _⟩
  | ok user =>
      cases hd : env.download with
      | none =>
          left
          simp only [runWith, hv, hd]
          exact ⟨⟨_, rfl⟩, users_catchErr _ _ _⟩
      | some records =>
          cases records with
          | nil =>
              rcases finishRun_cases gather env p user ⟨[], [], stats0⟩ with
                ⟨he, hu⟩ | ⟨hok, hdb⟩
              · left
                refine ⟨⟨.uploadFailed, ?_⟩, ?_⟩ <;> simp only [runWith, hv, hd]
                · exact he
                · exact hu
              · right
                refine ⟨user, rfl, ?_, ?_⟩ <;> simp only [runWith, hv, hd]
                · exact hok
                · exact hdb
          | cons headers dataRows =>
              cases hvc : validateEmailColumn headers p.emailColumnIndex with
              | error ce =>
                  left
                  simp only [runWith, hv, hd, hvc]
                  exact ⟨⟨_, rfl⟩, users_catchErr _ _ _⟩
              | ok u =>
                  rcases finishRun_cases gather env p user
                      (firstPass p.emailColumnIndex headers dataRows) with
                    ⟨he, hu⟩ | ⟨hok, hdb⟩
                  · left
                    refine ⟨⟨.uploadFailed, ?_⟩, ?_⟩ <;> simp only [runWith, hv, hd, hvc]
                    · exact he
                    · exact hu
                  · right
                    refine ⟨user, rfl, ?_, ?_⟩ <;> simp only [runWith, hv, hd, hvc]
                    · exact hok
                    · exact hdb

lemma getD_set (l : List (List Outcome)) (i j : Nat) (a : List Outcome) :
    (l.set i a).getD j [] = if i = j ∧ i < l.length then a else l.getD j [] := by
  rw [List.getD_eq_getElem?_getD, List.getElem?_set, List.getD_eq_getElem?_getD]
  by_cases h1 : i = j
  · subst h1
    by_cases h2 : i < l.length
    · simp [h2]
    · simp [h2, List.getElem?_eq_none (Nat.le_of_not_lt h2)]
  · simp [h1]

lemma length_foldl_set (results : List (List Outcome)) :
    ∀ (schedule : List Nat) (slots : List (List Outcome)),
      (schedule.foldl (fun slots w => slots.set w (results.getD w [])) slots).length =
        slots.length := by
  intro schedule
  induction schedule with
  | nil => intro slots; rfl
  | cons s rest ih =>
      intro slots
      rw [List.foldl_cons, ih, List.length_set]

lemma getD_foldl_set (results : List (List Outcome)) :
    ∀ (schedule : List Nat) (slots : List (List Outcome)) (w : Nat),
      slots.length = results.length →
      (schedule.foldl (fun slots w => slots.set w (results.getD w [])) slots).getD w [] =
        if w ∈ schedule ∧ w < results.length then results.getD w []
        else slots.getD w [] := by
  intro schedule
  induction schedule with
  | nil => intro slots w h; simp
  | cons s rest ih =>
      intro slots w hlen
      rw [List.foldl_cons, ih _ _ (by rw [List.length_set]; exact hlen), getD_set]
      by_cases hlt : w < results.length
      · by_cases hw : w ∈ rest
        · simp [hw, hlt, List.mem_cons]
        · by_cases hsw : s = w
          · subst hsw
            simp [hw, hlt, List.mem_cons, hlen]
          · simp [hw, hlt, List.mem_cons, hsw, Ne.symm hsw]
      · by_cases hsw : s = w
        · subst hsw
          simp [hlt, hlen, List.mem_cons]
        · simp [hlt, hsw, List.mem_cons]

lemma gatherBySchedule_complete (schedule : List Nat) (results : List (List Outcome))
    (h : ∀ w, w < results.length → w ∈ schedule) :
    gatherBySchedule schedule results = results := by
  have hlen : (gatherBySchedule schedule results).length = results.length := by
    rw [gatherBySchedule, length_foldl_set, List.length_replicate]
  apply List.ext_getElem hlen
  intro i h1 h2
  have hg : (gatherBySchedule schedule results).getD i [] = results.getD i [] := by
    rw [gatherBySchedule,
      getD_foldl_set results schedule _ i (List.length_replicate _ _)]
    simp [h i h2, h2]
  have e1 : (gatherBySchedule schedule results).getD i [] =
      (gatherBySchedule schedule results)[i] := by
    rw [List.getD_eq_getElem?_getD, List.getElem?_eq_getElem h1]
    rfl
  have e2 : results.getD i [] = results[i] := by
    rw [List.getD_eq_getElem?_getD, List.getElem?_eq_getElem h2]
    rfl
  rw [← e1, hg, e2]

lemma runWith_gather_congr (g1 g2 : List (List Outcome) → List (List Outcome))
    (env : Env) (p : Params)
    (hg : ∀ rs : List (List Outcome), rs.length = MAX_WORKERS → g1 rs = g2 rs) :
    runWith g1 env p = runWith g2 env p := by
  have hfin : ∀ (user : UserRow) (st : PassState),
      finishRun g1 env p user st = finishRun g2 env p user st := by
    intro user st
    have hlen : (workerResults env.verifyFn
        (splitEmailsIntoChunks (st.emailsToProcess.map (·.email)) MAX_WORKERS)).length =
        MAX_WORKERS := by
      rw [workerResults, List.length_map, length_splitEmailsIntoChunks]
    rw [finishRun, finishRun, hg _ hlen]
  cases hv : verifyUserCredits env.db.users p.userEmail p.totalEmails with
  | error e => simp only [runWith, hv]
  | ok user =>
      cases hd : env.download with
      | none => simp only [runWith, hv, hd]
      | some records =>
          cases records with
          | nil =>
              simp only [runWith, hv, hd]
              exact hfin user ⟨[], [], stats0⟩
          | cons headers dataRows =>
              cases hvc : validateEmailColumn headers p.emailColumnIndex with
              | error ce => simp only [runWith, hv, hd, hvc]
              | ok u =>
                  simp only [runWith, hv, hd, hvc]
                  exact hfin user (firstPass p.emailColumnIndex headers dataRows)

lemma spliceInsert_eraseIdx (v : String) :
    ∀ (n : Nat) (l : List String), (spliceInsert n v l).eraseIdx ((l.take n).length) = l := by
  intro n
  induction n with
  | zero => intro l; simp [spliceInsert]
  | succ n ih =>
      intro l
      cases l with
      | nil => simp [spliceInsert]
      | cons a l =>
          have h1 : spliceInsert (n + 1) v (a :: l) = a :: spliceInsert n v l := by
            simp [spliceInsert]
          have h2 : ((a :: l).take (n + 1)).length = (l.take n).length + 1 := by
            simp
          rw [h1, h2, List.eraseIdx_cons_succ, ih]

lemma length_spliceInsert (n : Nat) (v : String) (l : List String) :
    (spliceInsert n v l).length = l.length + 1 := by
  simp [spliceInsert]
  omega

lemma removeInserted_spliceInsert (emailColumnIndex : Nat) (v : String) (l : List String) :
    removeInserted emailColumnIndex (spliceInsert (emailColumnIndex + 1) v l) = l := by
  rw [removeInserted, length_spliceInsert]
  have h1 : l.length + 1 - 1 = l.length := by omega
  rw [h1]
  have h2 : min (emailColumnIndex + 1) l.length = (l.take (emailColumnIndex + 1)).length := by
    rw [List.length_take]
  rw [h2, spliceInsert_eraseIdx]

lemma foldl_classifyRow_processedRows (emailColumnIndex : Nat) :
    ∀ (rows : List (List String)) (st : PassState),
      (rows.foldl (classifyRow emailColumnIndex) st).processedRows =
        st.processedRows ++
          (rows.filter (fun r => isEmptyEmail (r.getD emailColumnIndex ""))).map
            (spliceInsert (emailColumnIndex + 1) "invalid") := by
  intro rows
  induction rows with
  | nil => intro st; simp
  | cons r rest ih =>
      intro st
      rw [List.foldl_cons, ih]
      by_cases h : isEmptyEmail (r.getD emailColumnIndex "")
      · rw [classifyRow]
        simp only [h, if_true, List.filter_cons, List.map_cons]
        simp [List.append_assoc]
      · rw [classifyRow]
        simp only [h, if_false, Bool.false_eq_true, List.filter_cons]

lemma foldl_classifyRow_records (emailColumnIndex : Nat) :
    ∀ (rows : List (List String)) (st : PassState),
      (rows.foldl (classifyRow emailColumnIndex) st).emailsToProcess.map (fun x => x.record) =
        st.emailsToProcess.map (fun x => x.record) ++
          rows.filter (fun r => !isEmptyEmail (r.getD emailColumnIndex "")) := by
  intro rows
  induction rows with
  | nil => intro st; simp
  | cons r rest ih =>
      intro st
      rw [List.foldl_cons, ih]
      by_cases h : isEmptyEmail (r.getD emailColumnIndex "")
      · rw [classifyRow]
        simp only [h, if_true, List.filter_cons]
        simp [h]
      · rw [classifyRow]
        simp only [h, if_false, Bool.false_eq_true, List.filter_cons]
        simp [h, List.append_assoc]

lemma mergeLoop_rows (emailColumnIndex : Nat) (etp : List EmailToProcess) :
    ∀ (results : List Outcome) (index : Nat) (rows : List (List String)) (stats : Stats),
      index + results.length ≤ etp.length →
      (mergeLoop emailColumnIndex etp results index rows stats).1 =
        rows ++ (results.zip ((etp.drop index).map (fun x => x.record))).map
          (fun pr => spliceInsert (emailColumnIndex + 1) pr.1.status pr.2) := by
  intro results
  induction results with
  | nil => intro index rows stats h; simp [mergeLoop]
  | cons res rest ih =>
      intro index rows stats h
      rw [List.length_cons] at h
      have hidx : index < etp.length := by omega
      rw [mergeLoop, ih (index + 1) _ _ (by omega)]
      have hdrop : etp.drop index = etp.getD index ⟨"", 0, []⟩ :: etp.drop (index + 1) := by
        rw [List.drop_eq_getElem_cons hidx]
        congr 1
        rw [List.getD_eq_getElem?_getD, List.getElem?_eq_getElem hidx]
        rfl
      rw [hdrop]
      simp [List.append_assoc]

lemma flatten_pushToChunk_length :
    ∀ (chunks : List (List String)) (j : Nat) (e : String), j < chunks.length →
      (pushToChunk chunks j e).flatten.length = chunks.flatten.length + 1 := by
  intro chunks
  induction chunks with
  | nil => intro j e h; exact absurd h (by simp)
  | cons c cs ih =>
      intro j e h
      cases j with
      | zero =>
          simp [pushToChunk]
          omega
      | succ j =>
          have hstep : pushToChunk (c :: cs) (j + 1) e = c :: pushToChunk cs j e := by
            simp [pushToChunk]
          rw [hstep]
          simp only [List.flatten_cons, List.length_append]
          rw [ih j e (by simpa using h)]
          omega

lemma flatten_splitGo_length (numChunks : Nat) (hN : 0 < numChunks) :
    ∀ (l : List String) (chunks : List (List String)) (s : Nat),
      chunks.length = numChunks →
      (splitGo numChunks chunks l s).flatten.length = chunks.flatten.length + l.length := by
  intro l
  induction l with
  | nil => intro chunks s h; simp [splitGo]
  | cons e rest ih =>
      intro chunks s hlen
      rw [splitGo, ih _ _ (by rw [length_pushToChunk]; exact hlen),
        flatten_pushToChunk_length _ _ _ (by rw [hlen]; exact Nat.mod_lt _ hN)]
      simp only [List.length_cons]
      omega

lemma flatten_splitEmailsIntoChunks_length (emails : List String) (numChunks : Nat)
    (hN : 0 < numChunks) :
    (splitEmailsIntoChunks emails numChunks).flatten.length = emails.length := by
  have h0 : ∀ n, (List.replicate n ([] : List String)).flatten = [] := by
    intro n
    induction n with
    | zero => rfl
    | succ n ih => simp [List.replicate_succ, ih]
  rw [splitEmailsIntoChunks,
    flatten_splitGo_length numChunks hN emails _ 0 (List.length_replicate _ _), h0]
  simp

lemma flatten_workerResults_length (f : String → Outcome) (chunks : List (List String)) :
    (workerResults f chunks).flatten.length = chunks.flatten.length := by
  rw [workerResults]
  induction chunks with
  | nil => rfl
  | cons c cs ih => simp_all [List.flatten_cons]

end EmailValidator

namespace CsvProcessor

lemma previewLoop_invariant (emailColumnIndex : Nat) :
    ∀ (rows : List (List String)) (stats : CsvPreviewStats) (seen : List String)
      (stats2 : CsvPreviewStats) (seen2 : List String),
      stats.totalRows ≠ 0 →
      previewLoop emailColumnIndex rows stats seen = .ok (stats2, seen2) →
      stats2.totalRows = stats.totalRows + rows.length ∧
      stats2.totalEmails + stats2.totalEmptyEmails + stats2.totalDuplicateEmails =
        stats.totalEmails + stats.totalEmptyEmails + stats.totalDuplicateEmails +
          rows.length := by
  intro rows
  induction rows with
  | nil =>
      intro stats seen stats2 seen2 hnz h
      rw [previewLoop] at h
      cases h
      simp
  | cons row rest ih =>
      intro stats seen stats2 seen2 hnz h
      rw [previewLoop] at h
      rw [if_neg (by simpa using hnz)] at h
      by_cases hlen : row.length ≤ emailColumnIndex
      · rw [if_pos hlen] at h
        cases h
      · rw [if_neg hlen] at h
        set email := EmailValidator.lowerStr
          (EmailValidator.trimStr (row.getD emailColumnIndex "")) with hemail
        by_cases hempty : (email == "" || email == "null" || email == "undefined") = true
        · rw [if_pos hempty] at h
          obtain ⟨h1, h2⟩ := ih _ _ _ _ (by simp) h
          constructor <;> simp [h1, h2] <;> omega
        · rw [if_neg hempty] at h
          by_cases hdup : seen.contains email = true
          · rw [if_pos hdup] at h
            obtain ⟨h1, h2⟩ := ih _ _ _ _ (by simp) h
            constructor <;> simp [h1, h2] <;> omega
          · rw [if_neg hdup] at h
            obtain ⟨h1, h2⟩ := ih _ _ _ _ (by simp) h
            constructor <;> simp [h1, h2] <;> omega

end CsvProcessor


/-- C3: for every address list and worker count `N ≥ 1`, chunk assignment is
round-robin by index mod `N`: the split has exactly `N` chunks; chunk `i` is the
subsequence of addresses at indices congruent to `i` mod `N` in increasing index
order; a record with index `k` lies in chunk `i` iff `i = k % N` (exactly one
chunk); chunk sizes differ by at most one; chunks at positions at or past the
list length are empty; and dropping empty chunks does not change the flattened
result of processing. -/
theorem c3_round_robin_chunking (emails : List String) (numChunks : Nat)
    (hN : 0 < numChunks) :
    (EmailValidator.splitEmailsIntoChunks emails numChunks).length = numChunks
  ∧ (∀ i, (EmailValidator.splitEmailsIntoChunks emails numChunks).getD i [] =
      ((emails.enum.filter (fun p => p.1 % numChunks == i)).map Prod.snd))
  ∧ (∀ k x i, (k, x) ∈ emails.enum →
      ((k, x) ∈ emails.enum.filter (fun p => p.1 % numChunks == i) ↔ i = k % numChunks))
  ∧ (∀ i j, i < numChunks → j < numChunks →
      ((EmailValidator.splitEmailsIntoChunks emails numChunks).getD i []).length ≤
        ((EmailValidator.splitEmailsIntoChunks emails numChunks).getD j []).length + 1)
  ∧ (∀ i, emails.length ≤ i →
      (EmailValidator.splitEmailsIntoChunks emails numChunks).getD i [] = [])
  ∧ (∀ (f : String → EmailValidator.Outcome),
      (((EmailValidator.splitEmailsIntoChunks emails numChunks).map (fun c => c.map f)).filter
          (fun c => !c.isEmpty)).flatten =
        ((EmailValidator.splitEmailsIntoChunks emails numChunks).map (fun c => c.map f)).flatten) := by
  refine ⟨EmailValidator.length_splitEmailsIntoChunks emails numChunks,
    fun i => EmailValidator.getD_splitEmailsIntoChunks emails numChunks hN i,
    ?_, ?_, ?_, ?_⟩
  · intro k x i hk
    constructor
    · intro hmem
      have := List.of_mem_filter hmem
      simp only [beq_iff_eq] at this
      omega
    · intro hi
      refine List.mem_filter.mpr ⟨hk, ?_⟩
      simp only [beq_iff_eq]
      omega
  · intro i j hi hj
    rw [EmailValidator.length_chunk emails numChunks i hN hi,
      EmailValidator.length_chunk emails numChunks j hN hj]
    have step : (emails.length + (numChunks - 1 - j)) / numChunks + 1 =
        (emails.length + (numChunks - 1 - j) + numChunks) / numChunks := by
      rw [Nat.add_div_right _ hN]
    rw [step]
    exact Nat.div_le_div_right (by omega)
  · intro i hlen
    rw [EmailValidator.getD_splitEmailsIntoChunks emails numChunks hN i]
    have hnil : emails.enum.filter (fun p => p.1 % numChunks == i) = [] := by
      refine List.filter_eq_nil_iff.mpr ?_
      intro p hp
      have hfst : p.1 < emails.length := by
        have h1 : p ∈ List.enumFrom 0 emails := hp
        have := List.fst_lt_add_of_mem_enumFrom h1
        omega
      simp only [beq_iff_eq]
      intro heq
      have : p.1 % numChunks ≤ p.1 := Nat.mod_le _ _
      omega
    rw [hnil]
    rfl
  · intro f
    exact EmailValidator.flatten_filter_ne_nil _

/-- Witness for C3 at a concrete input: five addresses over four workers. -/
theorem c3_round_robin_chunking_witness :
    (EmailValidator.splitEmailsIntoChunks ["a", "b", "c", "d", "e"] 4).getD 0 [] =
      (((["a", "b", "c", "d", "e"] : List String).enum.filter
        (fun p => p.1 % 4 == 0)).map Prod.snd)
  ∧ (EmailValidator.splitEmailsIntoChunks ["a", "b", "c", "d", "e"] 4).getD 0 [] = ["a", "e"] :=
  ⟨(c3_round_robin_chunking ["a", "b", "c", "d", "e"] 4 (by decide)).2.1 0, by decide⟩

/-- C4: the verification client never propagates a transport/timeout error:
if all four attempts (one initial plus `MAX_RETRIES = 3` retries) fail it
returns the synthetic outcome `{status: invalid, mx: error, provider: error}`
after waiting `min(2^attempt * 1000, 5000)` ms before each retry, namely
1000, 2000 and 4000 ms; in every run the delays waited are exactly
`min(2^attempt * 1000, 5000)` for the first `k ≤ 3` attempts; and an address
that is empty, whitespace-only, or textually `null`/`undefined` is classified
invalid locally by the first loop, without being added to the verification
work list (hence no network call). -/
theorem c4_retry_backoff_and_short_circuit :
    (∀ (net : Nat → Option EmailValidator.NetResponse) (email : String),
      (∀ k, k ≤ EmailValidator.MAX_RETRIES → net k = none) →
      EmailValidator.validateEmail net email 0 =
        (⟨email, "invalid", "error", "error"⟩, [1000, 2000, 4000]))
  ∧ (∀ (net : Nat → Option EmailValidator.NetResponse) (email : String),
      ∃ k, k ≤ EmailValidator.MAX_RETRIES ∧
        (EmailValidator.validateEmail net email 0).2 =
          (List.range k).map EmailValidator.backoffDelay)
  ∧ (∀ (emailColumnIndex : Nat) (st : EmailValidator.PassState) (record : List String),
      EmailValidator.isEmptyEmail (record.getD emailColumnIndex "") = true →
      EmailValidator.classifyRow emailColumnIndex st record =
        { st with
          processedRows := st.processedRows ++
            [EmailValidator.spliceInsert (emailColumnIndex + 1) "invalid" record],
          stats := { st.stats with invalid := st.stats.invalid + 1 } }) := by
  refine ⟨?_, ?_, ?_⟩
  · intro net email hnet
    have h0 := hnet 0 (by decide)
    have h1 := hnet 1 (by decide)
    have h2 := hnet 2 (by decide)
    have h3 := hnet 3 (by decide)
    rw [EmailValidator.validateEmail, h0]
    rw [EmailValidator.validateEmail, h1]
    rw [EmailValidator.validateEmail, h2]
    rw [EmailValidator.validateEmail, h3]
    norm_num [EmailValidator.MAX_RETRIES, EmailValidator.backoffDelay]
  · intro net email
    obtain ⟨k, hk, he⟩ := EmailValidator.validateEmail_delays net email
      (EmailValidator.MAX_RETRIES + 1) 0 (by omega) (by omega)
    exact ⟨k, by omega, by rw [he, List.range_eq_range']⟩
  · intro emailColumnIndex st record h
    rw [EmailValidator.classifyRow]
    simp only [h, if_true]

/-- Witness for C4: a network that always errors yields the synthetic outcome
with backoff trace 1000, 2000, 4000; a `null` address is classified invalid
locally by the first loop. -/
theorem c4_retry_backoff_and_short_circuit_witness :
    EmailValidator.validateEmail (fun _ => none) "x@y.z" 0 =
      (⟨"x@y.z", "invalid", "error", "error"⟩, [1000, 2000, 4000])
  ∧ EmailValidator.classifyRow 0 ⟨[], [], EmailValidator.stats0⟩ ["null", "z"] =
      { (⟨[], [], EmailValidator.stats0⟩ : EmailValidator.PassState) with
        processedRows := [] ++ [EmailValidator.spliceInsert 1 "invalid" ["null", "z"]],
        stats := { EmailValidator.stats0 with
                    invalid := EmailValidator.stats0.invalid + 1 } } :=
  ⟨c4_retry_backoff_and_short_circuit.1 (fun _ => none) "x@y.z" (fun _ _ => rfl),
   c4_retry_backoff_and_short_circuit.2.2 0 ⟨[], [], EmailValidator.stats0⟩ ["null", "z"]
     (by decide)⟩

/-- C8: locating the address column fails with the invalid-column error exactly
when the declared index is out of bounds of the header; otherwise it succeeds
iff the declared column passes one of the two heuristics (header text contains
`email` case-insensitively, or the sample text matches the structural email
pattern), fails with the column-not-email error when it passes neither, and in
that failure reports as suggestions exactly the set of indices that do pass
the heuristics. -/
theorem c8_locate_address_column (headers : List String) (emailColumnIndex : Nat) :
    (headers.length ≤ emailColumnIndex →
      EmailValidator.validateEmailColumn headers emailColumnIndex =
        .error (.invalidIndex (headers.length - 1)))
  ∧ (emailColumnIndex < headers.length →
      ((EmailValidator.validateEmailColumn headers emailColumnIndex = .ok ()) ↔
        EmailValidator.passesHeuristics (headers.getD emailColumnIndex "") = true))
  ∧ (emailColumnIndex < headers.length →
      EmailValidator.passesHeuristics (headers.getD emailColumnIndex "") = false →
      EmailValidator.validateEmailColumn headers emailColumnIndex =
        .error (.notEmailColumn (EmailValidator.potentialEmailColumns headers)))
  ∧ (∀ j, j ∈ EmailValidator.potentialEmailColumns headers ↔
      (j < headers.length ∧
        EmailValidator.passesHeuristics (headers.getD j "") = true)) := by
  refine ⟨?_, ?_, ?_, EmailValidator.mem_potentialEmailColumns headers⟩
  · intro h
    simp [EmailValidator.validateEmailColumn, h]
  · intro h
    rw [EmailValidator.validateEmailColumn_eq headers emailColumnIndex h]
    by_cases hp : EmailValidator.passesHeuristics (headers.getD emailColumnIndex "")
    · simp [hp]
    · simp [hp]
  · intro h hp
    rw [EmailValidator.validateEmailColumn_eq headers emailColumnIndex h, hp]
    simp

/-- Witness for C8: header `[name, email, age]` with declared index 1 passes;
with declared index 0 it fails and suggests exactly column 1; with declared
index 7 it fails as out of bounds. -/
theorem c8_locate_address_column_witness :
    ((EmailValidator.validateEmailColumn ["name", "email", "age"] 1 = .ok ()) ↔
      EmailValidator.passesHeuristics
        ((["name", "email", "age"] : List String).getD 1 "") = true)
  ∧ EmailValidator.validateEmailColumn ["name", "email", "age"] 0 =
      .error (.notEmailColumn (EmailValidator.potentialEmailColumns ["name", "email", "age"]))
  ∧ EmailValidator.validateEmailColumn ["name", "email", "age"] 7 =
      .error (.invalidIndex 2)
  ∧ EmailValidator.potentialEmailColumns ["name", "email", "age"] = [1] :=
  ⟨(c8_locate_address_column ["name", "email", "age"] 1).2.1 (by decide),
   (c8_locate_address_column ["name", "email", "age"] 0).2.2.1 (by decide) (by decide),
   (c8_locate_address_column ["name", "email", "age"] 7).1 (by decide),
   by decide⟩

/-- C1 (code bug): with five addresses and four workers the round-robin flat
result order is `a0, a4, a1, a2, a3`, and the merge loop attaches
`validationResults[index]` to `emailsToProcess[index]` (ignoring the collected
`rowIndex`), so the data row of `a1@x.com` is written the outcome `valid` of
`a4@x.com`, although the verifier classifies `a1@x.com` itself as `invalid`. -/
theorem c1_misattribution_eval :
    (EmailValidator.validateEmailsInCsv Scenarios.rrEnv Scenarios.rrParams).outRows.getD 2 []
      = ["a1@x.com", "valid"]
  ∧ (Scenarios.rrVerify "a1@x.com").status = "invalid"
  ∧ (Scenarios.rrVerify "a4@x.com").status = "valid" :=
  ⟨by decide, by decide, by decide⟩

/-- C2 (code bug): on a file with one verifiable and one short-circuited
(empty) address the final stats are `{valid 1, invalid 1, unverifiable 0,
processed 1}`: the short-circuited row increments `invalid` but not
`processed`, so `valid + invalid + unverifiable ≠ processed` and `processed`
differs from the declared total of 2 data rows. -/
theorem c2_stats_eval :
    (EmailValidator.validateEmailsInCsv Scenarios.statsEnv Scenarios.statsParams).stats =
      ⟨1, 1, 0, 1⟩
  ∧ ((EmailValidator.validateEmailsInCsv Scenarios.statsEnv Scenarios.statsParams).stats.valid +
      (EmailValidator.validateEmailsInCsv Scenarios.statsEnv Scenarios.statsParams).stats.invalid +
      (EmailValidator.validateEmailsInCsv Scenarios.statsEnv Scenarios.statsParams).stats.unverifiable ≠
      (EmailValidator.validateEmailsInCsv Scenarios.statsEnv Scenarios.statsParams).stats.processed)
  ∧ (EmailValidator.validateEmailsInCsv Scenarios.statsEnv Scenarios.statsParams).stats.processed ≠
      Scenarios.statsParams.totalEmails :=
  ⟨by decide, by decide, by decide⟩

/-- C6: authorization gates the run: when the user is unknown the run fails
with the user-not-found error, and when the user's credits are below the
declared total it fails with the insufficient-credits error naming the
required and available amounts; in both cases the database is untouched and
the effect trace shows zero blob-store operations and zero verification
calls. -/
theorem c6_authorization_gate
    (gather : List (List EmailValidator.Outcome) → List (List EmailValidator.Outcome))
    (env : EmailValidator.Env) (p : EmailValidator.Params) :
    (env.db.users.find? (fun u => u.user_email == p.userEmail) = none →
      EmailValidator.runWith gather env p =
        ⟨.error .userNotFound, env.db, ⟨0, 0⟩, [], EmailValidator.stats0⟩)
  ∧ (∀ u, env.db.users.find? (fun u => u.user_email == p.userEmail) = some u →
      u.credits < (p.totalEmails : Int) →
      EmailValidator.runWith gather env p =
        ⟨.error (.insufficientCredits p.totalEmails u.credits), env.db, ⟨0, 0⟩, [],
          EmailValidator.stats0⟩) := by
  constructor
  · intro h
    have hv : EmailValidator.verifyUserCredits env.db.users p.userEmail p.totalEmails =
        .error .userNotFound := by
      rw [EmailValidator.verifyUserCredits, h]
    simp [EmailValidator.runWith, hv, EmailValidator.catchErr, EmailValidator.isBadRequest]
  · intro u hu hc
    have hv : EmailValidator.verifyUserCredits env.db.users p.userEmail p.totalEmails =
        .error (.insufficientCredits p.totalEmails u.credits) := by
      rw [EmailValidator.verifyUserCredits, hu]
      exact if_pos hc
    simp [EmailValidator.runWith, hv, EmailValidator.catchErr, EmailValidator.isBadRequest]

/-- Witness for C6: an unknown user, and a user with 5 credits against a job
declaring 10, each fail before any blob or verification effect. -/
theorem c6_authorization_gate_witness :
    EmailValidator.runWith id
        ⟨⟨[], []⟩, some [["email"]], (fun e => ⟨e, "valid", "", ""⟩), true, true, true⟩
        ⟨0, "nobody@x.com", 10, "f6"⟩ =
      ⟨.error .userNotFound, ⟨[], []⟩, ⟨0, 0⟩, [], EmailValidator.stats0⟩
  ∧ EmailValidator.runWith id
        ⟨⟨[⟨"u1", "u@x.com", 5⟩], []⟩, some [["email"]],
          (fun e => ⟨e, "valid", "", ""⟩), true, true, true⟩
        ⟨0, "u@x.com", 10, "f6"⟩ =
      ⟨.error (.insufficientCredits 10 5), ⟨[⟨"u1", "u@x.com", 5⟩], []⟩, ⟨0, 0⟩, [],
        EmailValidator.stats0⟩ :=
  ⟨(c6_authorization_gate id _ _).1 (by decide),
   (c6_authorization_gate id _ _).2 ⟨"u1", "u@x.com", 5⟩ (by decide) (by decide)⟩

/-- C5 (counterexample): the claim that settlement is atomic with completion
is false on the code: the `Completed` insert and the credit update are
fire-and-forget writes whose results the code ignores, so in a reachable run
where the insert takes effect and the update is silently lost the run reports
success with a `Completed` record and untouched credits, and in the dual run
where the update takes effect and the insert is silently lost the run reports
success with credits deducted and no `Completed` record. -/
theorem c5_nonatomic_settlement_counterexample :
    ((EmailValidator.validateEmailsInCsv Scenarios.settleEnv Scenarios.settleParams).result =
        .ok ("Validation completed successfully", "Completed")
      ∧ ((EmailValidator.validateEmailsInCsv Scenarios.settleEnv
            Scenarios.settleParams).db.files.filter
          (fun f => f.status == "Completed")).length = 1
      ∧ (EmailValidator.validateEmailsInCsv Scenarios.settleEnv Scenarios.settleParams).db.users =
          [⟨"u1", "u@x.com", 10⟩])
  ∧ ((EmailValidator.validateEmailsInCsv Scenarios.settleEnvB Scenarios.settleParams).result =
        .ok ("Validation completed successfully", "Completed")
      ∧ (EmailValidator.validateEmailsInCsv Scenarios.settleEnvB Scenarios.settleParams).db.files =
          []
      ∧ (EmailValidator.validateEmailsInCsv Scenarios.settleEnvB Scenarios.settleParams).db.users =
          [⟨"u1", "u@x.com", 9⟩]) :=
  ⟨⟨rfl, by decide, by decide⟩, ⟨rfl, by decide, by decide⟩⟩

/-- C5 (amended): a run that fails never debits credits; the only credit
mutation the pipeline ever issues is a single decrement by exactly
`totalEmails` for the authorized user, issued only in a run that reports
successful completion (never a partial decrement); and when both final writes
take effect, the database ends with exactly the `Completed` record inserted
and the credits decremented by `totalEmails`.  The insert and the decrement
remain two separate unchecked writes, so either can be silently lost while
the run still reports success (see the counterexample). -/
theorem c5_settlement_amended
    (gather : List (List EmailValidator.Outcome) → List (List EmailValidator.Outcome))
    (env : EmailValidator.Env) (p : EmailValidator.Params) :
    (∀ e, (EmailValidator.runWith gather env p).result = .error e →
      (EmailValidator.runWith gather env p).db.users = env.db.users)
  ∧ ((EmailValidator.runWith gather env p).db.users = env.db.users ∨
      ∃ u, EmailValidator.verifyUserCredits env.db.users p.userEmail p.totalEmails = .ok u ∧
        (EmailValidator.runWith gather env p).result =
          .ok ("Validation completed successfully", "Completed") ∧
        (EmailValidator.runWith gather env p).db.users =
          (EmailValidator.updateCredits env.db u.user_id
            (u.credits - (p.totalEmails : Int))).users)
  ∧ (∀ x, (EmailValidator.runWith gather env p).result = .ok x →
      env.insertOk = true → env.updateOk = true →
      ∃ u, EmailValidator.verifyUserCredits env.db.users p.userEmail p.totalEmails = .ok u ∧
        (EmailValidator.runWith gather env p).db =
          EmailValidator.updateCredits
            (EmailValidator.insertFileRow env.db
              ⟨p.fileId, p.userEmail, "Completed", some p.totalEmails⟩)
            u.user_id (u.credits - (p.totalEmails : Int))) := by
  rcases EmailValidator.runWith_settlement_cases gather env p with ⟨⟨e, he⟩, hu⟩ | ⟨u, hv, hok, hdb⟩
  · refine ⟨fun e2 _ => hu, Or.inl hu, ?_⟩
    intro x hx _ _
    rw [he] at hx
    exact absurd hx (by simp)
  · refine ⟨?_, ?_, ?_⟩
    · intro e2 he2
      rw [hok] at he2
      exact absurd he2 (by simp)
    · by_cases hupd : env.updateOk = true
      · right
        refine ⟨u, hv, hok, ?_⟩
        rw [hdb, EmailValidator.users_settledDb, if_pos hupd]
      · left
        rw [hdb, EmailValidator.users_settledDb, if_neg hupd]
    · intro x hx hins hupd
      refine ⟨u, hv, ?_⟩
      rw [hdb, EmailValidator.settledDb]
      simp [hins, hupd]

/-- Witness for C5 (amended) at a concrete run with both final writes taking
effect: the user's 10 credits minus the declared total of 1, next to the
inserted `Completed` record. -/
theorem c5_settlement_amended_witness :
    ∃ u, EmailValidator.verifyUserCredits Scenarios.settleOkEnv.db.users
          Scenarios.settleParams.userEmail Scenarios.settleParams.totalEmails = .ok u ∧
      (EmailValidator.runWith id Scenarios.settleOkEnv Scenarios.settleParams).db =
        EmailValidator.updateCredits
          (EmailValidator.insertFileRow Scenarios.settleOkEnv.db
            ⟨Scenarios.settleParams.fileId, Scenarios.settleParams.userEmail, "Completed",
              some Scenarios.settleParams.totalEmails⟩)
          u.user_id (u.credits - (Scenarios.settleParams.totalEmails : Int)) :=
  (c5_settlement_amended id Scenarios.settleOkEnv Scenarios.settleParams).2.2
    ("Validation completed successfully", "Completed") rfl rfl rfl

/-- C7: the merge is deterministic and independent of worker completion order:
for any two complete completion schedules (each worker index below
`MAX_WORKERS` completes), the whole run result — in particular the output row
sequence, its joined byte string, and the final stats — is identical, and
equals the canonical positional `Promise.all` run on the same inputs with the
same deterministic per-address verifier. -/
theorem c7_merge_determinism (env : EmailValidator.Env) (p : EmailValidator.Params)
    (s1 s2 : List Nat)
    (h1 : ∀ w, w < EmailValidator.MAX_WORKERS → w ∈ s1)
    (h2 : ∀ w, w < EmailValidator.MAX_WORKERS → w ∈ s2) :
    EmailValidator.runWithSchedule s1 env p = EmailValidator.runWithSchedule s2 env p
  ∧ EmailValidator.finalCsv (EmailValidator.runWithSchedule s1 env p).outRows =
      EmailValidator.finalCsv (EmailValidator.runWithSchedule s2 env p).outRows
  ∧ (EmailValidator.runWithSchedule s1 env p).stats =
      (EmailValidator.runWithSchedule s2 env p).stats
  ∧ EmailValidator.runWithSchedule s1 env p = EmailValidator.validateEmailsInCsv env p := by
  have key : ∀ s : List Nat, (∀ w, w < EmailValidator.MAX_WORKERS → w ∈ s) →
      EmailValidator.runWithSchedule s env p = EmailValidator.validateEmailsInCsv env p := by
    intro s hs
    rw [EmailValidator.runWithSchedule, EmailValidator.validateEmailsInCsv]
    apply EmailValidator.runWith_gather_congr
    intro rs hrs
    have : EmailValidator.gatherBySchedule s rs = rs :=
      EmailValidator.gatherBySchedule_complete s rs (fun w hw => hs w (by rw [← hrs]; exact hw))
    simpa using this
  have e1 := key s1 h1
  have e2 := key s2 h2
  rw [e1, e2]
  exact ⟨rfl, rfl, rfl, rfl⟩

/-- Witness for C7: two different completion orders of the four workers on the
five-address scenario yield the identical run result. -/
theorem c7_merge_determinism_witness :
    EmailValidator.runWithSchedule [3, 0, 2, 1] Scenarios.rrEnv Scenarios.rrParams =
      EmailValidator.runWithSchedule [0, 1, 2, 3] Scenarios.rrEnv Scenarios.rrParams :=
  (c7_merge_determinism Scenarios.rrEnv Scenarios.rrParams [3, 0, 2, 1] [0, 1, 2, 3]
    (by decide) (by decide)).1

/-- C9: round-trip of the merge: every output row (header included) is the
corresponding original row with one value inserted at `emailColumnIndex + 1`,
so the original fields keep their relative order around the inserted column;
deleting the inserted column from each output row reconstructs the original
rows exactly (as a permutation consisting of the header, then the
short-circuited rows in order, then the verified rows), and the output has
exactly one row per input row. -/
theorem c9_merge_round_trip (f : String → EmailValidator.Outcome) (emailColumnIndex : Nat)
    (headers : List String) (dataRows : List (List String)) :
    List.Perm
      (((EmailValidator.processRecords id f emailColumnIndex headers dataRows).1).map
        (EmailValidator.removeInserted emailColumnIndex)) (headers :: dataRows)
  ∧ ((EmailValidator.processRecords id f emailColumnIndex headers dataRows).1).length =
      (headers :: dataRows).length
  ∧ (∀ row ∈ (EmailValidator.processRecords id f emailColumnIndex headers dataRows).1,
      ∃ orig ∈ headers :: dataRows, ∃ v,
        row = orig.take (emailColumnIndex + 1) ++ [v] ++ orig.drop (emailColumnIndex + 1) ∧
        EmailValidator.removeInserted emailColumnIndex row = orig) := by
  have hsplit :
      (EmailValidator.firstPass emailColumnIndex headers dataRows).processedRows =
        EmailValidator.spliceInsert (emailColumnIndex + 1) "Email_Validation" headers ::
          (dataRows.filter
            (fun r => EmailValidator.isEmptyEmail (r.getD emailColumnIndex ""))).map
            (EmailValidator.spliceInsert (emailColumnIndex + 1) "invalid") := by
    rw [EmailValidator.firstPass, EmailValidator.foldl_classifyRow_processedRows]
    rfl
  have hrec :
      (EmailValidator.firstPass emailColumnIndex headers dataRows).emailsToProcess.map
          (fun x => x.record) =
        dataRows.filter (fun r => !EmailValidator.isEmptyEmail (r.getD emailColumnIndex "")) := by
    rw [EmailValidator.firstPass, EmailValidator.foldl_classifyRow_records]
    rfl
  have hVRlen :
      ((EmailValidator.workerResults f (EmailValidator.splitEmailsIntoChunks
          ((EmailValidator.firstPass emailColumnIndex headers dataRows).emailsToProcess.map
            (·.email))
          EmailValidator.MAX_WORKERS)).flatten).length =
        (EmailValidator.firstPass emailColumnIndex headers dataRows).emailsToProcess.length := by
    rw [EmailValidator.flatten_workerResults_length,
      EmailValidator.flatten_splitEmailsIntoChunks_length _ _ (by decide), List.length_map]
  have hout :
      (EmailValidator.processRecords id f emailColumnIndex headers dataRows).1 =
        (EmailValidator.firstPass emailColumnIndex headers dataRows).processedRows ++
          (((EmailValidator.workerResults f (EmailValidator.splitEmailsIntoChunks
              ((EmailValidator.firstPass emailColumnIndex headers dataRows).emailsToProcess.map
                (·.email))
              EmailValidator.MAX_WORKERS)).flatten).zip
            ((EmailValidator.firstPass emailColumnIndex headers dataRows).emailsToProcess.map
              (fun x => x.record))).map
            (fun pr => EmailValidator.spliceInsert (emailColumnIndex + 1) pr.1.status pr.2) := by
    simp only [EmailValidator.processRecords, id_eq]
    rw [EmailValidator.mergeLoop_rows emailColumnIndex _ _ 0 _ _ (by rw [Nat.zero_add, hVRlen])]
    rw [List.drop_zero]
  have hremA :
      ((dataRows.filter
          (fun r => EmailValidator.isEmptyEmail (r.getD emailColumnIndex ""))).map
          (EmailValidator.spliceInsert (emailColumnIndex + 1) "invalid")).map
        (EmailValidator.removeInserted emailColumnIndex) =
        dataRows.filter (fun r => EmailValidator.isEmptyEmail (r.getD emailColumnIndex "")) := by
    rw [List.map_map]
    have hcongr : ∀ r ∈ dataRows.filter
        (fun r => EmailValidator.isEmptyEmail (r.getD emailColumnIndex "")),
        (EmailValidator.removeInserted emailColumnIndex ∘
          EmailValidator.spliceInsert (emailColumnIndex + 1) "invalid") r = r := by
      intro r _
      exact EmailValidator.removeInserted_spliceInsert emailColumnIndex "invalid" r
    rw [List.map_congr_left hcongr, List.map_id']
  have hremB :
      ∀ (vr : List EmailValidator.Outcome) (l2 : List (List String)), l2.length ≤ vr.length →
      ((vr.zip l2).map
          (fun pr => EmailValidator.spliceInsert (emailColumnIndex + 1) pr.1.status pr.2)).map
        (EmailValidator.removeInserted emailColumnIndex) = l2 := by
    intro vr l2 hle
    rw [List.map_map]
    have hcongr : ∀ pr ∈ vr.zip l2,
        (EmailValidator.removeInserted emailColumnIndex ∘
          fun pr => EmailValidator.spliceInsert (emailColumnIndex + 1) pr.1.status pr.2) pr =
          Prod.snd pr := by
      intro pr _
      exact EmailValidator.removeInserted_spliceInsert emailColumnIndex pr.1.status pr.2
    rw [List.map_congr_left hcongr, List.map_snd_zip vr l2 hle]
  have hmap :
      ((EmailValidator.processRecords id f emailColumnIndex headers dataRows).1).map
          (EmailValidator.removeInserted emailColumnIndex) =
        headers ::
          (dataRows.filter
            (fun r => EmailValidator.isEmptyEmail (r.getD emailColumnIndex "")) ++
          dataRows.filter
            (fun r => !EmailValidator.isEmptyEmail (r.getD emailColumnIndex ""))) := by
    rw [hout, hsplit, List.cons_append, List.map_cons, List.map_append, hremA,
      hremB _ _ (by rw [List.length_map, ← hVRlen]),
      EmailValidator.removeInserted_spliceInsert emailColumnIndex "Email_Validation" headers,
      hrec]
  have hperm :
      List.Perm
        (((EmailValidator.processRecords id f emailColumnIndex headers dataRows).1).map
          (EmailValidator.removeInserted emailColumnIndex)) (headers :: dataRows) := by
    rw [hmap]
    exact List.Perm.cons headers
      (List.filter_append_perm
        (fun r => EmailValidator.isEmptyEmail (r.getD emailColumnIndex "")) dataRows)
  refine ⟨hperm, ?_, ?_⟩
  · have hlen := hperm.length_eq
    rw [List.length_map] at hlen
    exact hlen
  · intro row hrow
    rw [hout, hsplit, List.cons_append] at hrow
    rcases List.mem_cons.mp hrow with hhd | hrow2
    · refine ⟨headers, List.mem_cons_self _ _, "Email_Validation", hhd, ?_⟩
      rw [hhd]
      exact EmailValidator.removeInserted_spliceInsert emailColumnIndex "Email_Validation" headers
    · rcases List.mem_append.mp hrow2 with hA | hB
      · rcases List.mem_map.mp hA with ⟨r, hr, hrw⟩
        refine ⟨r, List.mem_cons_of_mem _ (List.mem_of_mem_filter hr), "invalid", hrw.symm, ?_⟩
        rw [← hrw]
        exact EmailValidator.removeInserted_spliceInsert emailColumnIndex "invalid" r
      · rcases List.mem_map.mp hB with ⟨pr, hpr, hrw⟩
        have h2 : pr.2 ∈ (EmailValidator.firstPass emailColumnIndex headers
            dataRows).emailsToProcess.map (fun x => x.record) := (List.of_mem_zip hpr).2
        rw [hrec] at h2
        refine ⟨pr.2, List.mem_cons_of_mem _ (List.mem_of_mem_filter h2), pr.1.status,
          hrw.symm, ?_⟩
        rw [← hrw]
        exact EmailValidator.removeInserted_spliceInsert emailColumnIndex pr.1.status pr.2

/-- Witness for C9 at a concrete input: the verified output row of `a@b.c`
carries the original single field with the status inserted at index 1, and
deleting the inserted column reconstructs the original row. -/
theorem c9_merge_round_trip_witness :
    ∃ orig ∈ ([["email"], ["a@b.c"]] : List (List String)), ∃ v,
      (["a@b.c", "valid"] : List String) = orig.take 1 ++ [v] ++ orig.drop 1 ∧
      EmailValidator.removeInserted 0 ["a@b.c", "valid"] = orig :=
  (c9_merge_round_trip (fun e => ⟨e, "valid", "mx", "p"⟩) 0 ["email"] [["a@b.c"]]).2.2
    ["a@b.c", "valid"] (by decide)

/-- C10: when `previewCSV` succeeds, every non-header row has been classified
into exactly one of the three counters, so
`totalEmails + totalEmptyEmails + totalDuplicateEmails` equals the number of
non-header rows, and the reported `totalRows` is that number plus one for the
header — that is, the three counters sum to `totalRows - 1` and `totalRows`
equals the number of parsed rows. -/
theorem c10_preview_partition (rows : List (List String)) (emailColumnIndex : Nat)
    (stats : CsvProcessor.CsvPreviewStats)
    (h : CsvProcessor.previewCSV rows emailColumnIndex = .ok stats) :
    stats.totalEmails + stats.totalEmptyEmails + stats.totalDuplicateEmails + 1 =
      stats.totalRows
  ∧ stats.totalRows = rows.length := by
  rw [CsvProcessor.previewCSV] at h
  cases hvc : CsvProcessor.validateEmailColumn rows emailColumnIndex with
  | error e =>
      simp only [hvc] at h
      exact Except.noConfusion h
  | ok columnName =>
      simp only [hvc] at h
      cases hloop : CsvProcessor.previewLoop emailColumnIndex rows ⟨0, 0, 0, 0, columnName⟩ []
        with
      | error e =>
          simp only [hloop] at h
          exact Except.noConfusion h
      | ok pr =>
          obtain ⟨stats', seen'⟩ := pr
          simp only [hloop, Except.ok.injEq] at h
          subst h
          cases rows with
          | nil => rw [CsvProcessor.validateEmailColumn] at hvc; cases hvc
          | cons header rest =>
              rw [CsvProcessor.previewLoop] at hloop
              rw [if_pos (by rfl)] at hloop
              obtain ⟨h1, h2⟩ := CsvProcessor.previewLoop_invariant emailColumnIndex rest
                _ _ _ _ (by simp) hloop
              simp only at h1 h2
              constructor
              · rw [h1, h2]
                omega
              · rw [h1, List.length_cons]
                omega

/-- Witness for C10 at a concrete CSV: header plus a first occurrence, a
case-insensitive duplicate, and an empty address give counters 1/1/1 and
`totalRows = 4`. -/
theorem c10_preview_partition_witness :
    (1 : Nat) + 1 + 1 + 1 = 4 ∧ (4 : Nat) = 4 :=
  c10_preview_partition [["email"], ["a@b.c"], ["A@B.C"], [""]] 0 ⟨1, 4, 1, 1, "email"⟩ rfl
